import Mathlib

/-!
Verification of the data-handling utilities in `buffer.py` of EMNLP24_ARES:
the wrap-around batch index sampler `PPORLBatchSampler` and the padded-batch
collate function `ppo_rl_collate_fn`.

The Python code is shallowly embedded: the generator `__iter__` becomes a
pure function producing the list of yielded index groups, the inner `while`
refill loop is modelled with explicit fuel (returning `none` on the states
where the Python loop would not terminate, which are unreachable from the
iterator), and runtime errors (`ZeroDivisionError` in `__len__`, the
failures of `pad_sequence` on an empty list or on a `None` placeholder)
become `Option.none`.
-/

set_option autoImplicit false

namespace ARES

/-- One pass of the body of the main `for idx in range(n)` loop of
`PPORLBatchSampler.__iter__` (buffer.py lines 51-56), over the remaining
indices: accumulates indices into `batch`, emitting a group whenever
`len(batch) == batch_size` right after an append. Returns the list of
yielded groups together with the leftover accumulator. -/
def iterMain (bs : Nat) : List Nat → List Nat → List (List Nat) × List Nat
  | [], batch => ([], batch)
  | idx :: rest, batch =>
    let batch' := batch ++ [idx]
    if batch'.length = bs then
      let r := iterMain bs rest []
      (batch' :: r.1, r.2)
    else
      iterMain bs rest batch'

/-- One pass of the body of the `while needed > 0` refill loop
(buffer.py lines 60-63): `for i in range(min(needed, n)): batch.append(i)`. -/
def refillStep (n bs : Nat) (batch : List Nat) : List Nat :=
  batch ++ List.range (min (bs - batch.length) n)

/-- The `while needed > 0` refill loop of `PPORLBatchSampler.__iter__`
(buffer.py lines 59-63), with fuel: `none` models non-termination of the
Python loop (which can only happen when `n = 0` and the accumulator is
short, a state the iterator never reaches). `needed = bs - len(batch)` is
recomputed after every pass, exactly as in the source; with natural
subtraction, `needed > 0` agrees with the Python comparison also when the
Python value would be negative. -/
def refillLoop : Nat → Nat → Nat → List Nat → Option (List Nat)
  | 0, _, bs, batch => if bs - batch.length > 0 then none else some batch
  | fuel + 1, n, bs, batch =>
    if bs - batch.length > 0 then refillLoop fuel n bs (refillStep n bs batch)
    else some batch

/-- `PPORLBatchSampler.__iter__` (buffer.py lines 50-64) on a data source of
size `n` with batch size `bs`: the full list of yielded index groups, or
`none` if the refill loop would not terminate. Fuel `bs` always suffices
when `n ≥ 1`, since every pass of the refill loop then shrinks `needed` by
at least one. -/
def samplerIter (n bs : Nat) : Option (List (List Nat)) :=
  let r := iterMain bs (List.range n) []
  if r.2 = [] then some r.1
  else
    match refillLoop bs n bs r.2 with
    | some final => some (r.1 ++ [final])
    | none => none

/-- `PPORLBatchSampler.__len__` (buffer.py lines 66-67):
`(len(data_source) + batch_size - 1) // batch_size`, with `none` modelling
the `ZeroDivisionError` raised when `batch_size = 0`. -/
def samplerLen (n bs : Nat) : Option Nat :=
  if bs = 0 then none else some ((n + bs - 1) / bs)

/-- The trajectory record of buffer.py lines 11-41. `PPORLElement` holds the
five sequence fields; the vision variant `PPORLVisionElement` additionally
carries `image_ids`. The subclass relationship is embedded as an `Option`
field: `image_ids = none` is a plain `PPORLElement` (Python
`hasattr(element, "image_ids")` is false), `image_ids = some l` is a
`PPORLVisionElement`. Token ids are integers; the float tensors are
embedded over `Rat`, on which the collator performs no arithmetic. -/
structure PPORLElement where
  input_ids : List Int
  actions : List Int
  logprobs : List Rat
  values : List Rat
  rewards : List Rat
  image_ids : Option (List Int)
deriving DecidableEq, Repr

/-- The largest sequence length in a list of sequences, as computed inside
`torch.nn.utils.rnn.pad_sequence` (`max(s.size(0) for s in sequences)`),
folded from 0, which agrees with the Python maximum on nonempty input. -/
def maxLen {α : Type} (seqs : List (List α)) : Nat :=
  (seqs.map List.length).foldl Nat.max 0

/-- `torch.nn.utils.rnn.pad_sequence(seqs, batch_first=True, padding_value=v)`:
right-pads every sequence to the common maximum length. On an empty list of
sequences it raises, modelled by `none`. -/
def pad_sequence {α : Type} (seqs : List (List α)) (v : α) :
    Option (List (List α)) :=
  if seqs.isEmpty then none
  else some (seqs.map fun s => s ++ List.replicate (maxLen seqs - s.length) v)

/-- Turns a list of optional sequences into a list of sequences, failing on
any `none` entry: this models handing the collected `image_ids` list, which
may contain the `None` placeholder appended at buffer.py line 106, to
`pad_sequence`, which raises on a `None` entry. -/
def seqOptions {α : Type} : List (Option α) → Option (List α)
  | [] => some []
  | none :: _ => none
  | some x :: rest => (seqOptions rest).map (x :: ·)

/-- The batch dictionary returned by `ppo_rl_collate_fn` (buffer.py lines
109-119): the five always-present keys, plus the conditional `image_ids`
key (`none` when the key is absent from the dictionary). -/
structure CollatedBatch where
  input_ids : List (List Int)
  actions : List (List Int)
  logprobs : List (List Rat)
  values : List (List Rat)
  rewards : List (List Rat)
  image_ids : Option (List (List Int))
deriving DecidableEq, Repr

/-- `ppo_rl_collate_fn(batch, pad_token_id)` (buffer.py lines 81-121).
The per-record loop collects every field in record order; `has_image_ids`
is `any(hasattr(element, "image_ids") for element in batch)`; each field is
padded independently by `pad_sequence` with `pad_token_id` for `input_ids`
and `actions`, `0.0` for `logprobs`, `values` and `rewards`, and `0` for
`image_ids`. `none` models an exception escaping the call: `pad_sequence`
on an empty batch, or on an `image_ids` list holding a `None` placeholder
contributed by a record without that field. -/
def ppo_rl_collate_fn (batch : List PPORLElement) (pad_token_id : Int) :
    Option CollatedBatch :=
  let has_image_ids := batch.any fun e => e.image_ids.isSome
  match pad_sequence (batch.map PPORLElement.input_ids) pad_token_id,
      pad_sequence (batch.map PPORLElement.actions) pad_token_id,
      pad_sequence (batch.map PPORLElement.logprobs) 0,
      pad_sequence (batch.map PPORLElement.values) 0,
      pad_sequence (batch.map PPORLElement.rewards) 0 with
  | some ii, some ac, some lp, some vs, some rw =>
    if has_image_ids then
      match seqOptions (batch.map PPORLElement.image_ids) with
      | some imgs =>
        match pad_sequence imgs 0 with
        | some im => some ⟨ii, ac, lp, vs, rw, some im⟩
        | none => none
      | none => none
    else
      some ⟨ii, ac, lp, vs, rw, none⟩
  | _, _, _, _, _ => none

/-- A concrete two-record batch without vision fields, used to instantiate
the collator theorems: `input_ids` lengths 3 and 1, `actions` lengths 2 and
2, so the two fields pad to different widths. -/
def sampleBatchNoVision : List PPORLElement :=
  [⟨[1, 2, 3], [4, 5], [6], [7], [8], none⟩,
   ⟨[9], [10, 11], [13], [14], [15], none⟩]

/-- The batch produced by collating `sampleBatchNoVision` with pad token 9. -/
def sampleOutNoVision : CollatedBatch :=
  ⟨[[1, 2, 3], [9, 9, 9]], [[4, 5], [10, 11]],
   [[6], [13]], [[7], [14]], [[8], [15]], none⟩

/-- A concrete two-record batch in which every record carries `image_ids`. -/
def sampleBatchVision : List PPORLElement :=
  [⟨[1], [2], [3], [4], [5], some [6, 7]⟩,
   ⟨[8], [9, 10], [11], [12], [13], some [14]⟩]

/-- The batch produced by collating `sampleBatchVision` with pad token 9. -/
def sampleOutVision : CollatedBatch :=
  ⟨[[1], [8]], [[2, 9], [9, 10]], [[3], [11]], [[4], [12]], [[5], [13]],
   some [[6, 7], [14, 0]]⟩

/-- A one-record batch whose `actions` and `logprobs` lengths disagree. -/
def sampleBatchMismatch : List PPORLElement :=
  [⟨[1], [2, 3], [4], [5], [6], none⟩]

/-- A two-record batch that both mixes vision and non-vision records and
contains a record with mismatched `actions`/`logprobs` lengths. -/
def sampleBatchMixedMismatch : List PPORLElement :=
  [⟨[1], [2, 3], [4], [5], [6], some [7]⟩,
   ⟨[1], [2], [3], [4], [5], none⟩]

/-! ### Arithmetic helpers for the ceiling division in `__len__` -/

theorem ceil_div_of_exact (c bs : Nat) (hbs : 0 < bs) :
    (c * bs + bs - 1) / bs = c := by
  have h1 : c * bs + bs - 1 = (bs - 1) + c * bs := by
    have hj : ∀ j : Nat, j + bs - 1 = (bs - 1) + j := by
      intro j; omega
    exact hj (c * bs)
  rw [h1, Nat.add_mul_div_right _ _ hbs, Nat.div_eq_of_lt (Nat.sub_lt hbs Nat.one_pos)]
  omega

theorem ceil_div_of_partial (c s bs : Nat) (hbs : 0 < bs) (hs1 : 1 ≤ s)
    (hs2 : s < bs) : (c * bs + s + bs - 1) / bs = c + 1 := by
  have hmul : (c + 1) * bs = c * bs + bs := by rw [Nat.succ_mul]
  have h1 : c * bs + s + bs - 1 = (s - 1) + (c + 1) * bs := by
    rw [hmul]
    have hj : ∀ j : Nat, j + s + bs - 1 = (s - 1) + (j + bs) := by
      intro j; omega
    have := hj (c * bs)
    omega
  rw [h1, Nat.add_mul_div_right _ _ hbs,
    Nat.div_eq_of_lt (by omega : s - 1 < bs)]
  omega

/-! ### The main accumulation loop -/

theorem iterMain_spec (bs : Nat) (hbs : 1 ≤ bs) :
    ∀ (l batch : List Nat), batch.length < bs →
      (iterMain bs l batch).1.flatten ++ (iterMain bs l batch).2 = batch ++ l ∧
      (∀ g ∈ (iterMain bs l batch).1, g.length = bs) ∧
      (iterMain bs l batch).2.length < bs := by
  intro l
  induction l with
  | nil =>
    intro batch h
    simpa [iterMain] using h
  | cons idx rest ih =>
    intro batch h
    by_cases hlen : (batch ++ [idx]).length = bs
    · obtain ⟨ih1, ih2, ih3⟩ := ih [] hbs
      simp only [iterMain, hlen, if_true, eq_self_iff_true, if_pos]
      refine ⟨?_, ?_, ih3⟩
      · simp only [List.flatten_cons, List.append_assoc]
        rw [ih1]
        simp
      · intro g hg
        rcases List.mem_cons.mp hg with h1 | h1
        · rw [h1]; exact hlen
        · exact ih2 g h1
    · have hlt : (batch ++ [idx]).length < bs := by
        simp only [List.length_append, List.length_singleton] at hlen ⊢
        omega
      obtain ⟨ih1, ih2, ih3⟩ := ih (batch ++ [idx]) hlt
      simp only [iterMain, hlen, if_false, if_neg]
      refine ⟨?_, ih2, ih3⟩
      rw [ih1]
      simp

/-- The accumulator of the main loop, run on all of `range n` from an empty
accumulator, splits `range n` into the yielded groups plus the leftover. -/
theorem iterMain_range (n bs : Nat) (hbs : 1 ≤ bs) :
    (iterMain bs (List.range n) []).1.flatten ++ (iterMain bs (List.range n) []).2 =
      List.range n ∧
    (∀ g ∈ (iterMain bs (List.range n) []).1, g.length = bs) ∧
    (iterMain bs (List.range n) []).2.length < bs := by
  have := iterMain_spec bs hbs (List.range n) [] hbs
  simpa using this

theorem iterMain_bs_zero : ∀ (l batch : List Nat),
    iterMain 0 l batch = ([], batch ++ l) := by
  intro l
  induction l with
  | nil => intro batch; simp [iterMain]
  | cons idx rest ih =>
    intro batch
    have hne : (batch ++ [idx]).length ≠ 0 := by simp
    simp only [iterMain, hne, if_false, if_neg, ih (batch ++ [idx])]
    simp

/-! ### The refill loop -/

theorem range_min_append (n needed : Nat) (hn : 1 ≤ n) :
    List.range (min needed n) ++ (List.range (needed - min needed n)).map (· % n) =
      (List.range needed).map (· % n) := by
  by_cases hle : needed ≤ n
  · have hmin : min needed n = needed := Nat.min_eq_left hle
    have hid : ∀ x ∈ List.range needed, x % n = x := by
      intro x hx
      exact Nat.mod_eq_of_lt (Nat.lt_of_lt_of_le (List.mem_range.mp hx) hle)
    rw [hmin, Nat.sub_self]
    simp only [List.range_zero, List.map_nil, List.append_nil]
    rw [List.map_congr_left hid]
    simp
  · have hmin : min needed n = n := Nat.min_eq_right (Nat.le_of_not_le hle)
    have hsplit : needed = n + (needed - n) := by omega
    rw [hmin]
    conv_rhs => rw [hsplit, List.range_add]
    rw [List.map_append, List.map_map]
    congr 1
    · have hid : ∀ x ∈ List.range n, x % n = x := by
        intro x hx
        exact Nat.mod_eq_of_lt (List.mem_range.mp hx)
      rw [List.map_congr_left hid]
      simp
    · apply List.map_congr_left
      intro x _
      simp [Nat.add_mod_left]

theorem refillLoop_eq (n bs : Nat) (hn : 1 ≤ n) :
    ∀ (fuel : Nat) (batch : List Nat), bs - batch.length ≤ fuel →
      refillLoop fuel n bs batch =
        some (batch ++ (List.range (bs - batch.length)).map (· % n)) := by
  intro fuel
  induction fuel with
  | zero =>
    intro batch h
    have h0 : bs - batch.length = 0 := Nat.le_zero.mp h
    simp [refillLoop, h0]
  | succ f ih =>
    intro batch h
    by_cases hpos : 0 < bs - batch.length
    · have hstep : (refillStep n bs batch).length =
          batch.length + min (bs - batch.length) n := by
        simp [refillStep]
      have hneed : bs - (refillStep n bs batch).length =
          (bs - batch.length) - min (bs - batch.length) n := by
        rw [hstep]; omega
      have hmpos : 1 ≤ min (bs - batch.length) n := by
        exact le_min hpos hn
      have hfuel : bs - (refillStep n bs batch).length ≤ f := by
        rw [hneed]; omega
      simp only [refillLoop, hpos, if_pos, gt_iff_lt]
      rw [ih (refillStep n bs batch) hfuel, hneed]
      simp only [refillStep, List.append_assoc]
      rw [range_min_append n (bs - batch.length) hn]
    · have h0 : bs - batch.length = 0 := by omega
      simp [refillLoop, h0]

/-! ### Characterisation of the full iterator -/

theorem samplerIter_of_no_rem (n bs : Nat)
    (h : (iterMain bs (List.range n) []).2 = []) :
    samplerIter n bs = some (iterMain bs (List.range n) []).1 := by
  simp [samplerIter, h]

theorem samplerIter_of_rem (n bs : Nat) (hn : 1 ≤ n)
    (h : (iterMain bs (List.range n) []).2 ≠ []) :
    samplerIter n bs = some ((iterMain bs (List.range n) []).1 ++
      [(iterMain bs (List.range n) []).2 ++
        (List.range (bs - (iterMain bs (List.range n) []).2.length)).map (· % n)]) := by
  have hr := refillLoop_eq n bs hn bs (iterMain bs (List.range n) []).2
    (Nat.sub_le _ _)
  simp [samplerIter, h, hr]

theorem flatten_length_of_all (bs : Nat) (L : List (List Nat))
    (h : ∀ g ∈ L, g.length = bs) : L.flatten.length = L.length * bs := by
  rw [List.length_flatten]
  have hrep : L.map List.length = List.replicate L.length bs := by
    apply List.eq_replicate_iff.mpr
    refine ⟨by simp, ?_⟩
    intro b hb
    obtain ⟨g, hg, rfl⟩ := List.mem_map.mp hb
    exact h g hg
  rw [hrep, List.sum_replicate, smul_eq_mul]

/-- Full description of the yielded groups for `n ≥ 1`, `bs ≥ 1`: the
iterator terminates, yields `ceil(n / bs)` groups of length `bs` of indices
below `n`, and the first `n` yielded indices are `0, 1, ..., n-1`. -/
theorem samplerIter_groups (n bs : Nat) (hn : 1 ≤ n) (hbs : 1 ≤ bs) :
    ∃ gs, samplerIter n bs = some gs ∧
      gs.length = (n + bs - 1) / bs ∧
      (∀ g ∈ gs, g.length = bs) ∧
      (∀ g ∈ gs, ∀ x ∈ g, x < n) ∧
      gs.flatten.take n = List.range n := by
  obtain ⟨hA, hB, hC⟩ := iterMain_range n bs hbs
  have hbs0 : 0 < bs := hbs
  have hflat : (iterMain bs (List.range n) []).1.flatten.length =
      (iterMain bs (List.range n) []).1.length * bs :=
    flatten_length_of_all bs _ hB
  have hcount : (iterMain bs (List.range n) []).1.length * bs +
      (iterMain bs (List.range n) []).2.length = n := by
    have := congrArg List.length hA
    simpa [hflat] using this
  by_cases hrem : (iterMain bs (List.range n) []).2 = []
  · refine ⟨(iterMain bs (List.range n) []).1,
      samplerIter_of_no_rem n bs hrem, ?_, hB, ?_, ?_⟩
    · rw [hrem] at hcount
      simp only [List.length_nil, Nat.add_zero] at hcount
      symm
      conv_lhs => rw [← hcount]
      exact ceil_div_of_exact _ bs hbs0
    · intro g hg x hx
      have hmem : x ∈ (iterMain bs (List.range n) []).1.flatten :=
        List.mem_flatten.mpr ⟨g, hg, hx⟩
      have : x ∈ List.range n := by
        rw [← hA]
        exact List.mem_append_left _ hmem
      exact List.mem_range.mp this
    · have hfl : (iterMain bs (List.range n) []).1.flatten = List.range n := by
        rw [hrem] at hA
        simpa using hA
      rw [hfl]
      simp [List.take_range]
  · have hs1 : 1 ≤ (iterMain bs (List.range n) []).2.length :=
      List.length_pos.mpr hrem
    refine ⟨(iterMain bs (List.range n) []).1 ++
      [(iterMain bs (List.range n) []).2 ++
        (List.range (bs - (iterMain bs (List.range n) []).2.length)).map (· % n)],
      samplerIter_of_rem n bs hn hrem, ?_, ?_, ?_, ?_⟩
    · simp only [List.length_append, List.length_singleton]
      symm
      conv_lhs => rw [← hcount]
      exact ceil_div_of_partial _ _ bs hbs0 hs1 hC
    · intro g hg
      rcases List.mem_append.mp hg with h1 | h1
      · exact hB g h1
      · rcases List.mem_singleton.mp h1 with rfl
        simp only [List.length_append, List.length_map, List.length_range]
        omega
    · intro g hg x hx
      have hin_range : ∀ y, y ∈ (iterMain bs (List.range n) []).1.flatten ++
          (iterMain bs (List.range n) []).2 → y < n := by
        intro y hy
        rw [hA] at hy
        exact List.mem_range.mp hy
      rcases List.mem_append.mp hg with h1 | h1
      · exact hin_range x (List.mem_append_left _
          (List.mem_flatten.mpr ⟨g, h1, hx⟩))
      · rcases List.mem_singleton.mp h1 with rfl
        rcases List.mem_append.mp hx with h2 | h2
        · exact hin_range x (List.mem_append_right _ h2)
        · obtain ⟨y, _, rfl⟩ := List.mem_map.mp h2
          exact Nat.mod_lt y hn
    · rw [List.flatten_append]
      simp only [List.flatten_cons, List.flatten_nil, List.append_nil]
      rw [← List.append_assoc, hA]
      rw [List.take_append_of_le_length (by simp)]
      simp [List.take_range]

/-- Claim C1: for every `n ≥ 1` and `batch_size ≥ 1`, iterating the batch
sampler yields exactly `ceil(n / batch_size)` index groups, each of length
exactly `batch_size`, every index below `n`, the first `n` yielded indices
(before wrap-fill) being `0 .. n-1` in order, and `__len__`, computed as
`(n + batch_size - 1) // batch_size`, equals that group count. -/
theorem sampler_yields_ceil_groups (n bs : Nat) (hn : 1 ≤ n) (hbs : 1 ≤ bs) :
    ∃ gs, samplerIter n bs = some gs ∧
      gs.length = (n + bs - 1) / bs ∧
      (∀ g ∈ gs, g.length = bs) ∧
      (∀ g ∈ gs, ∀ x ∈ g, x < n) ∧
      gs.flatten.take n = List.range n ∧
      samplerLen n bs = some gs.length := by
  obtain ⟨gs, h1, h2, h3, h4, h5⟩ := samplerIter_groups n bs hn hbs
  refine ⟨gs, h1, h2, h3, h4, h5, ?_⟩
  rw [samplerLen, if_neg (by omega : bs ≠ 0), h2]

theorem sampler_yields_ceil_groups_witness :
    samplerIter 7 3 = some [[0, 1, 2], [3, 4, 5], [6, 0, 1]] ∧
    ∃ gs, samplerIter 7 3 = some gs ∧
      gs.length = (7 + 3 - 1) / 3 ∧
      (∀ g ∈ gs, g.length = 3) ∧
      (∀ g ∈ gs, ∀ x ∈ g, x < 7) ∧
      gs.flatten.take 7 = List.range 7 ∧
      samplerLen 7 3 = some gs.length :=
  ⟨by decide, sampler_yields_ceil_groups 7 3 (by decide) (by decide)⟩

/-- Claim C2: when the main pass over `0 .. n-1` leaves a partial final
group, the sampler refills it by re-appending indices starting again from
`0` in order, wrapping through `0 .. n-1` repeatedly as needed (position
`j` of the refill receives index `j mod n`), until the group has exactly
`batch_size` elements, and emits it as the final group; in particular
`n = 7, batch_size = 3` yields `[0,1,2], [3,4,5], [6,0,1]` and
`n = 2, batch_size = 5` yields the single group `[0,1,0,1,0]`. -/
theorem sampler_wrap_refill (n bs : Nat) (hn : 1 ≤ n) (hbs : 1 ≤ bs)
    (hpart : (iterMain bs (List.range n) []).2 ≠ []) :
    (samplerIter n bs =
      some ((iterMain bs (List.range n) []).1 ++
        [(iterMain bs (List.range n) []).2 ++
          (List.range (bs - (iterMain bs (List.range n) []).2.length)).map
            (· % n)]) ∧
     ((iterMain bs (List.range n) []).2 ++
        (List.range (bs - (iterMain bs (List.range n) []).2.length)).map
          (· % n)).length = bs) ∧
    samplerIter 7 3 = some [[0, 1, 2], [3, 4, 5], [6, 0, 1]] ∧
    samplerIter 2 5 = some [[0, 1, 0, 1, 0]] := by
  obtain ⟨hA, hB, hC⟩ := iterMain_range n bs hbs
  refine ⟨⟨samplerIter_of_rem n bs hn hpart, ?_⟩, by decide, by decide⟩
  simp only [List.length_append, List.length_map, List.length_range]
  omega

theorem sampler_wrap_refill_witness :
    (samplerIter 7 3 =
      some ((iterMain 3 (List.range 7) []).1 ++
        [(iterMain 3 (List.range 7) []).2 ++
          (List.range (3 - (iterMain 3 (List.range 7) []).2.length)).map
            (· % 7)]) ∧
     ((iterMain 3 (List.range 7) []).2 ++
        (List.range (3 - (iterMain 3 (List.range 7) []).2.length)).map
          (· % 7)).length = 3) ∧
    samplerIter 7 3 = some [[0, 1, 2], [3, 4, 5], [6, 0, 1]] ∧
    samplerIter 2 5 = some [[0, 1, 0, 1, 0]] :=
  sampler_wrap_refill 7 3 (by decide) (by decide) (by decide)

/-- Claim C3: on an empty collection (`n = 0`) the iterator yields no
groups at all, for every `batch_size ≥ 1`, and `__len__` returns `0`. -/
theorem sampler_empty_source (bs : Nat) (hbs : 1 ≤ bs) :
    samplerIter 0 bs = some [] ∧ samplerLen 0 bs = some 0 := by
  constructor
  · simp [samplerIter, iterMain]
  · rw [samplerLen, if_neg (show bs ≠ 0 by omega)]
    have h0 : (0 + bs - 1) / bs = 0 := Nat.div_eq_of_lt (by omega)
    rw [h0]

theorem sampler_empty_source_witness :
    samplerIter 0 4 = some [] ∧ samplerLen 0 4 = some 0 :=
  sampler_empty_source 4 (by decide)

/-- Claim C10: with `batch_size = 0` and `n ≥ 1` the iterator does not fail
fast: it yields exactly one group, `[0, 1, ..., n-1]` of length `n` (the
size check `len(batch) == batch_size` runs only after an append and never
fires, and the refill loop is skipped because `needed` is not positive),
while `__len__` raises a division-by-zero error. -/
theorem sampler_batch_size_zero (n : Nat) (hn : 1 ≤ n) :
    samplerIter n 0 = some [List.range n] ∧ samplerLen n 0 = none := by
  constructor
  · have hmain := iterMain_bs_zero (List.range n) []
    have hne : List.range n ≠ [] := by
      intro h
      rw [List.range_eq_nil] at h
      omega
    simp [samplerIter, hmain, hne, refillLoop]
  · rfl

theorem sampler_batch_size_zero_witness :
    samplerIter 3 0 = some [List.range 3] ∧ samplerLen 3 0 = none :=
  sampler_batch_size_zero 3 (by decide)

/-! ### Lemmas about `pad_sequence` and the collected `image_ids` list -/

theorem pad_sequence_eq {α : Type} (seqs : List (List α)) (v : α)
    (h : seqs ≠ []) :
    pad_sequence seqs v =
      some (seqs.map fun s => s ++ List.replicate (maxLen seqs - s.length) v) := by
  cases seqs with
  | nil => exact absurd rfl h
  | cons a l => rfl

theorem foldl_max_le (l : List Nat) :
    ∀ a : Nat, a ≤ l.foldl Nat.max a ∧ ∀ x ∈ l, x ≤ l.foldl Nat.max a := by
  induction l with
  | nil =>
    intro a
    exact ⟨Nat.le_refl a, by simp⟩
  | cons y ys ih =>
    intro a
    refine ⟨Nat.le_trans (Nat.le_max_left a y) (ih (Nat.max a y)).1, ?_⟩
    intro x hx
    rcases List.mem_cons.mp hx with rfl | hx
    · exact Nat.le_trans (Nat.le_max_right a x) (ih (Nat.max a x)).1
    · exact (ih (Nat.max a y)).2 x hx

theorem le_maxLen {α : Type} (seqs : List (List α)) (s : List α)
    (hs : s ∈ seqs) : s.length ≤ maxLen seqs :=
  (foldl_max_le (seqs.map List.length) 0).2 s.length
    (List.mem_map.mpr ⟨s, hs, rfl⟩)

theorem padded_rows {α : Type} (seqs : List (List α)) (v : α) :
    (seqs.map fun s => s ++ List.replicate (maxLen seqs - s.length) v).length =
      seqs.length ∧
    ∀ row ∈ seqs.map fun s => s ++ List.replicate (maxLen seqs - s.length) v,
      row.length = maxLen seqs := by
  refine ⟨List.length_map _ _, ?_⟩
  intro row hrow
  obtain ⟨s, hs, rfl⟩ := List.mem_map.mp hrow
  have := le_maxLen seqs s hs
  simp only [List.length_append, List.length_replicate]
  omega

theorem seqOptions_of_mem_none {α : Type} :
    ∀ l : List (Option α), none ∈ l → seqOptions l = none := by
  intro l
  induction l with
  | nil => intro h; simp at h
  | cons o rest ih =>
    intro h
    cases o with
    | none => rfl
    | some a =>
      rcases List.mem_cons.mp h with h1 | h1
      · exact absurd h1.symm (Option.some_ne_none a)
      · simp [seqOptions, ih h1]

theorem map_image_of_all_some :
    ∀ batch : List PPORLElement, (∀ e ∈ batch, e.image_ids.isSome) →
      batch.map PPORLElement.image_ids =
        (batch.filterMap PPORLElement.image_ids).map some := by
  intro batch
  induction batch with
  | nil => intro _; rfl
  | cons e rest ih =>
    intro h
    have he : e.image_ids.isSome := h e (List.mem_cons_self e rest)
    obtain ⟨l, hl⟩ := Option.isSome_iff_exists.mp he
    have hrest := ih fun x hx => h x (List.mem_cons_of_mem e hx)
    simp [List.filterMap_cons, hl, hrest]

theorem seqOptions_map_some {α : Type} :
    ∀ xs : List α, seqOptions (xs.map some) = some xs := by
  intro xs
  induction xs with
  | nil => rfl
  | cons x rest ih => simp [seqOptions, ih]

theorem filterMap_image_length :
    ∀ batch : List PPORLElement, (∀ e ∈ batch, e.image_ids.isSome) →
      (batch.filterMap PPORLElement.image_ids).length = batch.length := by
  intro batch
  induction batch with
  | nil => intro _; rfl
  | cons e rest ih =>
    intro h
    have he : e.image_ids.isSome := h e (List.mem_cons_self e rest)
    obtain ⟨l, hl⟩ := Option.isSome_iff_exists.mp he
    have hrest := ih fun x hx => h x (List.mem_cons_of_mem e hx)
    simp [List.filterMap_cons, hl, hrest]

theorem padded_field_shape {α : Type} (batch : List PPORLElement)
    (f : PPORLElement → List α) (v : α) :
    ((batch.map f).map fun s =>
      s ++ List.replicate (maxLen (batch.map f) - s.length) v).length =
        batch.length ∧
    ∀ row ∈ (batch.map f).map fun s =>
        s ++ List.replicate (maxLen (batch.map f) - s.length) v,
      row.length = maxLen (batch.map f) := by
  refine ⟨?_, (padded_rows _ v).2⟩
  rw [(padded_rows _ v).1, List.length_map]

/-- Every batch either has no vision record, only vision records, or is
mixed. -/
theorem batch_image_trichotomy (batch : List PPORLElement) :
    (∀ e ∈ batch, e.image_ids = none) ∨
    (∀ e ∈ batch, e.image_ids.isSome) ∨
    ((∃ e ∈ batch, e.image_ids.isSome) ∧ ∃ f ∈ batch, f.image_ids = none) := by
  by_cases h1 : ∀ e ∈ batch, e.image_ids = none
  · exact Or.inl h1
  by_cases h2 : ∀ e ∈ batch, e.image_ids.isSome
  · exact Or.inr (Or.inl h2)
  push_neg at h1 h2
  obtain ⟨e, he, hne⟩ := h1
  obtain ⟨f, hf, hnf⟩ := h2
  refine Or.inr (Or.inr ⟨⟨e, he, ?_⟩, ⟨f, hf, ?_⟩⟩)
  · cases h : e.image_ids with
    | none => exact absurd h hne
    | some l => simp
  · exact Option.not_isSome_iff_eq_none.mp (by simpa using hnf)

theorem map_field_ne_nil {α : Type} (batch : List PPORLElement)
    (f : PPORLElement → List α) (hne : batch ≠ []) : batch.map f ≠ [] := by
  intro h
  exact hne (List.map_eq_nil_iff.mp h)

/-- Closed form of the collate function on a nonempty batch in which no
record carries `image_ids`. -/
theorem collate_of_no_image (batch : List PPORLElement) (p : Int)
    (hne : batch ≠ [])
    (himg : ∀ e ∈ batch, e.image_ids = none) :
    ppo_rl_collate_fn batch p = some
      ⟨(batch.map PPORLElement.input_ids).map
          (fun s => s ++
            List.replicate (maxLen (batch.map PPORLElement.input_ids) - s.length) p),
        (batch.map PPORLElement.actions).map
          (fun s => s ++
            List.replicate (maxLen (batch.map PPORLElement.actions) - s.length) p),
        (batch.map PPORLElement.logprobs).map
          (fun s => s ++
            List.replicate (maxLen (batch.map PPORLElement.logprobs) - s.length) 0),
        (batch.map PPORLElement.values).map
          (fun s => s ++
            List.replicate (maxLen (batch.map PPORLElement.values) - s.length) 0),
        (batch.map PPORLElement.rewards).map
          (fun s => s ++
            List.replicate (maxLen (batch.map PPORLElement.rewards) - s.length) 0),
        none⟩ := by
  have hany : (batch.any fun e => e.image_ids.isSome) = false := by
    rw [List.any_eq_false]
    intro e he
    simp [himg e he]
  simp only [ppo_rl_collate_fn,
    pad_sequence_eq _ _ (map_field_ne_nil batch PPORLElement.input_ids hne),
    pad_sequence_eq _ _ (map_field_ne_nil batch PPORLElement.actions hne),
    pad_sequence_eq _ _ (map_field_ne_nil batch PPORLElement.logprobs hne),
    pad_sequence_eq _ _ (map_field_ne_nil batch PPORLElement.values hne),
    pad_sequence_eq _ _ (map_field_ne_nil batch PPORLElement.rewards hne),
    hany]
  simp

/-- Closed form of the collate function on a nonempty batch in which every
record carries `image_ids`. -/
theorem collate_of_all_image (batch : List PPORLElement) (p : Int)
    (hne : batch ≠ [])
    (himg : ∀ e ∈ batch, e.image_ids.isSome) :
    ppo_rl_collate_fn batch p = some
      ⟨(batch.map PPORLElement.input_ids).map
          (fun s => s ++
            List.replicate (maxLen (batch.map PPORLElement.input_ids) - s.length) p),
        (batch.map PPORLElement.actions).map
          (fun s => s ++
            List.replicate (maxLen (batch.map PPORLElement.actions) - s.length) p),
        (batch.map PPORLElement.logprobs).map
          (fun s => s ++
            List.replicate (maxLen (batch.map PPORLElement.logprobs) - s.length) 0),
        (batch.map PPORLElement.values).map
          (fun s => s ++
            List.replicate (maxLen (batch.map PPORLElement.values) - s.length) 0),
        (batch.map PPORLElement.rewards).map
          (fun s => s ++
            List.replicate (maxLen (batch.map PPORLElement.rewards) - s.length) 0),
        some ((batch.filterMap PPORLElement.image_ids).map
          (fun s => s ++
            List.replicate
              (maxLen (batch.filterMap PPORLElement.image_ids) - s.length) 0))⟩ := by
  obtain ⟨e0, rest0, rfl⟩ := List.exists_cons_of_ne_nil hne
  set batch := e0 :: rest0 with hbatch
  have hany : (batch.any fun e => e.image_ids.isSome) = true := by
    rw [List.any_eq_true]
    exact ⟨e0, List.mem_cons_self e0 rest0, himg e0 (List.mem_cons_self e0 rest0)⟩
  have hseq : seqOptions (batch.map PPORLElement.image_ids) =
      some (batch.filterMap PPORLElement.image_ids) := by
    rw [map_image_of_all_some batch himg, seqOptions_map_some]
  have hfne : batch.filterMap PPORLElement.image_ids ≠ [] := by
    intro h
    have := filterMap_image_length batch himg
    rw [h] at this
    simp [hbatch] at this
  simp only [ppo_rl_collate_fn,
    pad_sequence_eq _ _ (map_field_ne_nil batch PPORLElement.input_ids hne),
    pad_sequence_eq _ _ (map_field_ne_nil batch PPORLElement.actions hne),
    pad_sequence_eq _ _ (map_field_ne_nil batch PPORLElement.logprobs hne),
    pad_sequence_eq _ _ (map_field_ne_nil batch PPORLElement.values hne),
    pad_sequence_eq _ _ (map_field_ne_nil batch PPORLElement.rewards hne),
    hany, hseq, pad_sequence_eq _ _ hfne]
  simp

/-- A mixed batch — some record with `image_ids`, some record without —
makes the collate call fail: the `None` placeholder collected for the
record without the field reaches `pad_sequence`, which raises on it. -/
theorem collate_of_mixed (batch : List PPORLElement) (p : Int)
    (e f : PPORLElement) (he : e ∈ batch) (hf : f ∈ batch)
    (hesome : e.image_ids.isSome) (hfnone : f.image_ids = none) :
    ppo_rl_collate_fn batch p = none := by
  have hne : batch ≠ [] := by
    intro h
    rw [h] at he
    simp at he
  have hany : (batch.any fun x => x.image_ids.isSome) = true := by
    rw [List.any_eq_true]
    exact ⟨e, he, hesome⟩
  have hseq : seqOptions (batch.map PPORLElement.image_ids) = none :=
    seqOptions_of_mem_none _ (List.mem_map.mpr ⟨f, hf, hfnone⟩)
  simp only [ppo_rl_collate_fn,
    pad_sequence_eq _ _ (map_field_ne_nil batch PPORLElement.input_ids hne),
    pad_sequence_eq _ _ (map_field_ne_nil batch PPORLElement.actions hne),
    pad_sequence_eq _ _ (map_field_ne_nil batch PPORLElement.logprobs hne),
    pad_sequence_eq _ _ (map_field_ne_nil batch PPORLElement.values hne),
    pad_sequence_eq _ _ (map_field_ne_nil batch PPORLElement.rewards hne),
    hany, hseq]
  simp

/-- Claim C4: for every non-empty list of records, each field in the
collate output — `input_ids`, `actions`, `logprobs`, `values`, `rewards`,
and `image_ids` when included — has shape `(len(records), max_length)`,
where the maximum length is computed per field independently over the
records in the list; in particular `input_ids` and `actions` are not
padded to a shared length. -/
theorem collate_shape (batch : List PPORLElement) (p : Int)
    (out : CollatedBatch) (hne : batch ≠ [])
    (hout : ppo_rl_collate_fn batch p = some out) :
    (out.input_ids.length = batch.length ∧
      ∀ row ∈ out.input_ids,
        row.length = maxLen (batch.map PPORLElement.input_ids)) ∧
    (out.actions.length = batch.length ∧
      ∀ row ∈ out.actions,
        row.length = maxLen (batch.map PPORLElement.actions)) ∧
    (out.logprobs.length = batch.length ∧
      ∀ row ∈ out.logprobs,
        row.length = maxLen (batch.map PPORLElement.logprobs)) ∧
    (out.values.length = batch.length ∧
      ∀ row ∈ out.values,
        row.length = maxLen (batch.map PPORLElement.values)) ∧
    (out.rewards.length = batch.length ∧
      ∀ row ∈ out.rewards,
        row.length = maxLen (batch.map PPORLElement.rewards)) ∧
    (∀ im, out.image_ids = some im → im.length = batch.length ∧
      ∀ row ∈ im,
        row.length = maxLen (batch.filterMap PPORLElement.image_ids)) := by
  rcases batch_image_trichotomy batch with hcase | hcase |
    ⟨⟨e, he, hes⟩, ⟨f, hf, hfn⟩⟩
  · rw [collate_of_no_image batch p hne hcase] at hout
    obtain rfl := Option.some.inj hout
    refine ⟨padded_field_shape batch PPORLElement.input_ids p,
      padded_field_shape batch PPORLElement.actions p,
      padded_field_shape batch PPORLElement.logprobs 0,
      padded_field_shape batch PPORLElement.values 0,
      padded_field_shape batch PPORLElement.rewards 0, ?_⟩
    intro im him
    exact absurd him (by simp)
  · rw [collate_of_all_image batch p hne hcase] at hout
    obtain rfl := Option.some.inj hout
    refine ⟨padded_field_shape batch PPORLElement.input_ids p,
      padded_field_shape batch PPORLElement.actions p,
      padded_field_shape batch PPORLElement.logprobs 0,
      padded_field_shape batch PPORLElement.values 0,
      padded_field_shape batch PPORLElement.rewards 0, ?_⟩
    intro im him
    obtain rfl := Option.some.inj him
    refine ⟨?_, (padded_rows _ 0).2⟩
    rw [(padded_rows _ 0).1, filterMap_image_length batch hcase]
  · rw [collate_of_mixed batch p e f he hf hes hfn] at hout
    exact absurd hout (by simp)

theorem collate_shape_witness :
    sampleBatchNoVision ≠ [] ∧
    ppo_rl_collate_fn sampleBatchNoVision 9 = some sampleOutNoVision ∧
    maxLen (sampleBatchNoVision.map PPORLElement.input_ids) ≠
      maxLen (sampleBatchNoVision.map PPORLElement.actions) ∧
    ((sampleOutNoVision.input_ids.length = sampleBatchNoVision.length ∧
      ∀ row ∈ sampleOutNoVision.input_ids,
        row.length = maxLen (sampleBatchNoVision.map PPORLElement.input_ids)) ∧
    (sampleOutNoVision.actions.length = sampleBatchNoVision.length ∧
      ∀ row ∈ sampleOutNoVision.actions,
        row.length = maxLen (sampleBatchNoVision.map PPORLElement.actions)) ∧
    (sampleOutNoVision.logprobs.length = sampleBatchNoVision.length ∧
      ∀ row ∈ sampleOutNoVision.logprobs,
        row.length = maxLen (sampleBatchNoVision.map PPORLElement.logprobs)) ∧
    (sampleOutNoVision.values.length = sampleBatchNoVision.length ∧
      ∀ row ∈ sampleOutNoVision.values,
        row.length = maxLen (sampleBatchNoVision.map PPORLElement.values)) ∧
    (sampleOutNoVision.rewards.length = sampleBatchNoVision.length ∧
      ∀ row ∈ sampleOutNoVision.rewards,
        row.length = maxLen (sampleBatchNoVision.map PPORLElement.rewards)) ∧
    (∀ im, sampleOutNoVision.image_ids = some im →
      im.length = sampleBatchNoVision.length ∧
      ∀ row ∈ im, row.length =
        maxLen (sampleBatchNoVision.filterMap PPORLElement.image_ids))) :=
  ⟨by decide, by decide, by decide,
    collate_shape sampleBatchNoVision 9 sampleOutNoVision (by decide) (by decide)⟩

/-- Claim C5: for every non-empty list of records, row `i` of each collated
field is the original sequence of record `i` followed by the designated
fill value of the field up to the field maximum length: `pad_token_id` for `input_ids`
and `actions`, `0.0` for `logprobs`, `values` and `rewards`, and `0` for
`image_ids`. Each output field equals the record-order map of that padding
over the batch, so row `i` begins with the sequence of record `i` unchanged. -/
theorem collate_padding_values (batch : List PPORLElement) (p : Int)
    (out : CollatedBatch) (hne : batch ≠ [])
    (hout : ppo_rl_collate_fn batch p = some out) :
    out.input_ids = batch.map (fun e => e.input_ids ++
      List.replicate
        (maxLen (batch.map PPORLElement.input_ids) - e.input_ids.length) p) ∧
    out.actions = batch.map (fun e => e.actions ++
      List.replicate
        (maxLen (batch.map PPORLElement.actions) - e.actions.length) p) ∧
    out.logprobs = batch.map (fun e => e.logprobs ++
      List.replicate
        (maxLen (batch.map PPORLElement.logprobs) - e.logprobs.length) 0) ∧
    out.values = batch.map (fun e => e.values ++
      List.replicate
        (maxLen (batch.map PPORLElement.values) - e.values.length) 0) ∧
    out.rewards = batch.map (fun e => e.rewards ++
      List.replicate
        (maxLen (batch.map PPORLElement.rewards) - e.rewards.length) 0) ∧
    ∀ im, out.image_ids = some im →
      im = (batch.filterMap PPORLElement.image_ids).map (fun s => s ++
        List.replicate
          (maxLen (batch.filterMap PPORLElement.image_ids) - s.length) 0) := by
  rcases batch_image_trichotomy batch with hcase | hcase |
    ⟨⟨e, he, hes⟩, ⟨f, hf, hfn⟩⟩
  · rw [collate_of_no_image batch p hne hcase] at hout
    obtain rfl := Option.some.inj hout
    refine ⟨?_, ?_, ?_, ?_, ?_, ?_⟩
    · simp [List.map_map, Function.comp]
    · simp [List.map_map, Function.comp]
    · simp [List.map_map, Function.comp]
    · simp [List.map_map, Function.comp]
    · simp [List.map_map, Function.comp]
    · intro im him
      exact absurd him (by simp)
  · rw [collate_of_all_image batch p hne hcase] at hout
    obtain rfl := Option.some.inj hout
    refine ⟨?_, ?_, ?_, ?_, ?_, ?_⟩
    · simp [List.map_map, Function.comp]
    · simp [List.map_map, Function.comp]
    · simp [List.map_map, Function.comp]
    · simp [List.map_map, Function.comp]
    · simp [List.map_map, Function.comp]
    · intro im him
      obtain rfl := Option.some.inj him
      rfl
  · rw [collate_of_mixed batch p e f he hf hes hfn] at hout
    exact absurd hout (by simp)

theorem collate_padding_values_witness :
    sampleBatchVision ≠ [] ∧
    ppo_rl_collate_fn sampleBatchVision 9 = some sampleOutVision ∧
    (sampleOutVision.input_ids = sampleBatchVision.map (fun e => e.input_ids ++
      List.replicate (maxLen (sampleBatchVision.map PPORLElement.input_ids) -
        e.input_ids.length) 9) ∧
    sampleOutVision.actions = sampleBatchVision.map (fun e => e.actions ++
      List.replicate (maxLen (sampleBatchVision.map PPORLElement.actions) -
        e.actions.length) 9) ∧
    sampleOutVision.logprobs = sampleBatchVision.map (fun e => e.logprobs ++
      List.replicate (maxLen (sampleBatchVision.map PPORLElement.logprobs) -
        e.logprobs.length) 0) ∧
    sampleOutVision.values = sampleBatchVision.map (fun e => e.values ++
      List.replicate (maxLen (sampleBatchVision.map PPORLElement.values) -
        e.values.length) 0) ∧
    sampleOutVision.rewards = sampleBatchVision.map (fun e => e.rewards ++
      List.replicate (maxLen (sampleBatchVision.map PPORLElement.rewards) -
        e.rewards.length) 0) ∧
    ∀ im, sampleOutVision.image_ids = some im →
      im = (sampleBatchVision.filterMap PPORLElement.image_ids).map
        (fun s => s ++ List.replicate
          (maxLen (sampleBatchVision.filterMap PPORLElement.image_ids) -
            s.length) 0)) :=
  ⟨by decide, by decide,
    collate_padding_values sampleBatchVision 9 sampleOutVision
      (by decide) (by decide)⟩

/-- Claim C6: for every non-empty list of records, the collate output has
an `image_ids` key iff at least one record exposes `image_ids` (every record
contributes its `image_ids` when present, a placeholder otherwise), and when
all records expose it the output includes the stacked padded `image_ids`
field. -/
theorem collate_image_key_iff (batch : List PPORLElement) (p : Int)
    (hne : batch ≠ []) :
    (∀ out, ppo_rl_collate_fn batch p = some out →
      (out.image_ids.isSome ↔ ∃ e ∈ batch, e.image_ids.isSome)) ∧
    ((∀ e ∈ batch, e.image_ids.isSome) →
      ∃ out, ppo_rl_collate_fn batch p = some out ∧
        out.image_ids = some ((batch.filterMap PPORLElement.image_ids).map
          (fun s => s ++ List.replicate
            (maxLen (batch.filterMap PPORLElement.image_ids) - s.length) 0))) ∧
    ((∀ e ∈ batch, e.image_ids = none) →
      ∃ out, ppo_rl_collate_fn batch p = some out ∧ out.image_ids = none) := by
  refine ⟨?_, ?_, ?_⟩
  · intro out hout
    rcases batch_image_trichotomy batch with hcase | hcase |
      ⟨⟨e, he, hes⟩, ⟨f, hf, hfn⟩⟩
    · rw [collate_of_no_image batch p hne hcase] at hout
      obtain rfl := Option.some.inj hout
      simp only [Option.isSome_none, Bool.false_eq_true, false_iff]
      rintro ⟨e, he, hes⟩
      rw [hcase e he] at hes
      simp at hes
    · rw [collate_of_all_image batch p hne hcase] at hout
      obtain rfl := Option.some.inj hout
      simp only [Option.isSome_some, true_iff]
      obtain ⟨e0, rest0, rfl⟩ := List.exists_cons_of_ne_nil hne
      exact ⟨e0, List.mem_cons_self e0 rest0,
        hcase e0 (List.mem_cons_self e0 rest0)⟩
    · rw [collate_of_mixed batch p e f he hf hes hfn] at hout
      exact absurd hout (by simp)
  · intro hall
    exact ⟨_, collate_of_all_image batch p hne hall, rfl⟩
  · intro hnone
    exact ⟨_, collate_of_no_image batch p hne hnone, rfl⟩

theorem collate_image_key_iff_witness :
    sampleBatchVision ≠ [] ∧
    ((∀ out, ppo_rl_collate_fn sampleBatchVision 9 = some out →
      (out.image_ids.isSome ↔ ∃ e ∈ sampleBatchVision, e.image_ids.isSome)) ∧
    ((∀ e ∈ sampleBatchVision, e.image_ids.isSome) →
      ∃ out, ppo_rl_collate_fn sampleBatchVision 9 = some out ∧
        out.image_ids =
          some ((sampleBatchVision.filterMap PPORLElement.image_ids).map
            (fun s => s ++ List.replicate
              (maxLen (sampleBatchVision.filterMap PPORLElement.image_ids) -
                s.length) 0))) ∧
    ((∀ e ∈ sampleBatchVision, e.image_ids = none) →
      ∃ out, ppo_rl_collate_fn sampleBatchVision 9 = some out ∧
        out.image_ids = none)) :=
  ⟨by decide, collate_image_key_iff sampleBatchVision 9 (by decide)⟩

/-- Counterexample to claim C7 as stated: this non-empty batch contains a
record whose `actions`, `logprobs`, `values`, `rewards` lengths do not all
agree, yet the collate call does not return a batch — it fails, because the
batch also mixes a vision record with a non-vision one, and the `None`
placeholder collected for the latter makes `pad_sequence` raise. -/
theorem collate_mismatch_can_still_raise :
    (∃ e ∈ sampleBatchMixedMismatch,
      ¬(e.actions.length = e.logprobs.length ∧
        e.actions.length = e.values.length ∧
        e.actions.length = e.rewards.length)) ∧
    ppo_rl_collate_fn sampleBatchMixedMismatch 9 = none := by decide

/-- Claim C7, amended: for every non-empty list of records that does not
mix vision and non-vision records (all expose `image_ids`, or none do), if
the `actions`, `logprobs`, `values` and `rewards` of some record do not all
share a length, the collate function raises no error and still returns a
batch, each of those fields padded independently to its own per-field
maximum, so the returned fields may have differing second dimensions. -/
theorem collate_mismatch_still_batches (batch : List PPORLElement) (p : Int)
    (hne : batch ≠ [])
    (huni : (∀ e ∈ batch, e.image_ids.isSome) ∨ (∀ e ∈ batch, e.image_ids = none))
    (hmis : ∃ e ∈ batch, ¬(e.actions.length = e.logprobs.length ∧
      e.actions.length = e.values.length ∧
      e.actions.length = e.rewards.length)) :
    ∃ out, ppo_rl_collate_fn batch p = some out ∧
      (∀ row ∈ out.actions,
        row.length = maxLen (batch.map PPORLElement.actions)) ∧
      (∀ row ∈ out.logprobs,
        row.length = maxLen (batch.map PPORLElement.logprobs)) ∧
      (∀ row ∈ out.values,
        row.length = maxLen (batch.map PPORLElement.values)) ∧
      (∀ row ∈ out.rewards,
        row.length = maxLen (batch.map PPORLElement.rewards)) := by
  rcases huni with hall | hnone
  · exact ⟨_, collate_of_all_image batch p hne hall,
      (padded_field_shape batch PPORLElement.actions p).2,
      (padded_field_shape batch PPORLElement.logprobs 0).2,
      (padded_field_shape batch PPORLElement.values 0).2,
      (padded_field_shape batch PPORLElement.rewards 0).2⟩
  · exact ⟨_, collate_of_no_image batch p hne hnone,
      (padded_field_shape batch PPORLElement.actions p).2,
      (padded_field_shape batch PPORLElement.logprobs 0).2,
      (padded_field_shape batch PPORLElement.values 0).2,
      (padded_field_shape batch PPORLElement.rewards 0).2⟩

theorem collate_mismatch_still_batches_witness :
    sampleBatchMismatch ≠ [] ∧
    (∀ e ∈ sampleBatchMismatch, e.image_ids = none) ∧
    (∃ e ∈ sampleBatchMismatch,
      ¬(e.actions.length = e.logprobs.length ∧
        e.actions.length = e.values.length ∧
        e.actions.length = e.rewards.length)) ∧
    maxLen (sampleBatchMismatch.map PPORLElement.actions) ≠
      maxLen (sampleBatchMismatch.map PPORLElement.logprobs) ∧
    ∃ out, ppo_rl_collate_fn sampleBatchMismatch 9 = some out ∧
      (∀ row ∈ out.actions,
        row.length = maxLen (sampleBatchMismatch.map PPORLElement.actions)) ∧
      (∀ row ∈ out.logprobs,
        row.length = maxLen (sampleBatchMismatch.map PPORLElement.logprobs)) ∧
      (∀ row ∈ out.values,
        row.length = maxLen (sampleBatchMismatch.map PPORLElement.values)) ∧
      (∀ row ∈ out.rewards,
        row.length = maxLen (sampleBatchMismatch.map PPORLElement.rewards)) :=
  ⟨by decide, by decide, by decide, by decide,
    collate_mismatch_still_batches sampleBatchMismatch 9 (by decide)
      (Or.inr (by decide)) (by decide)⟩

/-- Claim C8: the collate function is deterministic: two invocations on
records holding identical field data (and the same pad token id) yield
identical outputs. The output depends on the records only through their six
fields, and the embedding consumes the input records by value, so the
invocation does not modify them. -/
theorem collate_deterministic (b₁ b₂ : List PPORLElement) (p : Int)
    (h : List.Forall₂ (fun e₁ e₂ => e₁.input_ids = e₂.input_ids ∧
      e₁.actions = e₂.actions ∧ e₁.logprobs = e₂.logprobs ∧
      e₁.values = e₂.values ∧ e₁.rewards = e₂.rewards ∧
      e₁.image_ids = e₂.image_ids) b₁ b₂) :
    ppo_rl_collate_fn b₁ p = ppo_rl_collate_fn b₂ p := by
  have hb : b₁ = b₂ := by
    induction h with
    | nil => rfl
    | cons hrel htail ih =>
      obtain ⟨h1, h2, h3, h4, h5, h6⟩ := hrel
      congr 1
      · cases ‹PPORLElement›
        cases ‹PPORLElement›
        simp_all
  rw [hb]

theorem collate_deterministic_witness :
    ppo_rl_collate_fn [⟨[1], [2], [3], [4], [5], none⟩] 9 =
      ppo_rl_collate_fn [⟨[1], [2], [3], [4], [5], none⟩] 9 :=
  collate_deterministic _ _ 9
    (List.Forall₂.cons ⟨rfl, rfl, rfl, rfl, rfl, rfl⟩ List.Forall₂.nil)

/-- Claim C9: for the empty record list the collate function does not
return a batch of empty fields: `pad_sequence` is applied to an empty list
of sequences and fails, so collate is only defined for non-empty batches. -/
theorem collate_empty_batch_fails : ∀ p : Int, ppo_rl_collate_fn [] p = none :=
  fun _ => rfl

theorem collate_empty_batch_fails_witness : ppo_rl_collate_fn [] 0 = none :=
  collate_empty_batch_fails 0

end ARES
